import Mathlib

/-
Verification of the ray-tracer core (vec3 / ray / sphere / hittable_list /
materials / ray_color / color output) against its specification.

Modelling conventions, used consistently below:
* C++ `double` values are modelled as real numbers (ℝ).  The parametric
  interval bounds `t_min`/`t_max` of the `hit` interface are modelled as
  extended reals (EReal), because the integrator passes the double value
  `infinity` as upper bound; all computed quantities (roots, coordinates)
  are finite and stay in ℝ, coerced into EReal only for the comparisons
  the code performs.
* C++ reference out-parameters (`hit_record& rec`, `color& attenuation`,
  `ray& scattered`) are modelled by passing the current value in and
  returning the new value: a function `f(..., T& out) -> bool` becomes
  `f : ... → T → Bool × T`, returning the flag together with the final
  value of the out-parameter.
* The rejection-sampling random generators (`random_in_unit_sphere`,
  `random_double`) are modelled as oracle inputs: each scatter call takes
  the vector drawn inside the unit sphere and the uniform real draw as
  explicit arguments.
-/

noncomputable section

open scoped Classical

set_option linter.unusedVariables false

namespace RT

/-- Three-component real vector, also used as point and as RGB color
(vec3 / point3 / color in the source, fields e[0], e[1], e[2] with
accessors x, y, z). -/
@[ext]
structure vec3 where
  x : ℝ
  y : ℝ
  z : ℝ

/-- Componentwise addition, `operator+`. -/
instance : Add vec3 := ⟨fun u v => ⟨u.x + v.x, u.y + v.y, u.z + v.z⟩⟩

/-- Componentwise subtraction, `operator-`. -/
instance : Sub vec3 := ⟨fun u v => ⟨u.x - v.x, u.y - v.y, u.z - v.z⟩⟩

/-- Componentwise negation, unary `operator-`. -/
instance : Neg vec3 := ⟨fun v => ⟨-v.x, -v.y, -v.z⟩⟩

/-- Componentwise (Hadamard) product, `operator*(vec3, vec3)`, used for
color attenuation. -/
instance : Mul vec3 := ⟨fun u v => ⟨u.x * v.x, u.y * v.y, u.z * v.z⟩⟩

/-- Scalar multiple, `operator*(double, vec3)`. -/
instance : SMul ℝ vec3 := ⟨fun t v => ⟨t * v.x, t * v.y, t * v.z⟩⟩

/-- Scalar division, `operator/(vec3, double)`, defined in the source as
`(1/t) * v`. -/
instance : HDiv vec3 ℝ vec3 := ⟨fun v t => (1 / t) • v⟩

@[simp] theorem vec3_add_mk (a b c d e f : ℝ) :
    (vec3.mk a b c) + (vec3.mk d e f) = ⟨a + d, b + e, c + f⟩ := rfl

@[simp] theorem vec3_sub_mk (a b c d e f : ℝ) :
    (vec3.mk a b c) - (vec3.mk d e f) = ⟨a - d, b - e, c - f⟩ := rfl

@[simp] theorem vec3_neg_mk (a b c : ℝ) :
    -(vec3.mk a b c) = ⟨-a, -b, -c⟩ := rfl

@[simp] theorem vec3_mul_mk (a b c d e f : ℝ) :
    (vec3.mk a b c) * (vec3.mk d e f) = ⟨a * d, b * e, c * f⟩ := rfl

@[simp] theorem vec3_smul_mk (t a b c : ℝ) :
    t • (vec3.mk a b c) = ⟨t * a, t * b, t * c⟩ := rfl

@[simp] theorem vec3_div_mk (a b c t : ℝ) :
    (vec3.mk a b c) / t = ⟨(1 / t) * a, (1 / t) * b, (1 / t) * c⟩ := rfl

@[simp] theorem vec3_add_x (u v : vec3) : (u + v).x = u.x + v.x := rfl
@[simp] theorem vec3_add_y (u v : vec3) : (u + v).y = u.y + v.y := rfl
@[simp] theorem vec3_add_z (u v : vec3) : (u + v).z = u.z + v.z := rfl
@[simp] theorem vec3_sub_x (u v : vec3) : (u - v).x = u.x - v.x := rfl
@[simp] theorem vec3_sub_y (u v : vec3) : (u - v).y = u.y - v.y := rfl
@[simp] theorem vec3_sub_z (u v : vec3) : (u - v).z = u.z - v.z := rfl
@[simp] theorem vec3_neg_x (v : vec3) : (-v).x = -v.x := rfl
@[simp] theorem vec3_neg_y (v : vec3) : (-v).y = -v.y := rfl
@[simp] theorem vec3_neg_z (v : vec3) : (-v).z = -v.z := rfl
@[simp] theorem vec3_smul_x (t : ℝ) (v : vec3) : (t • v).x = t * v.x := rfl
@[simp] theorem vec3_smul_y (t : ℝ) (v : vec3) : (t • v).y = t * v.y := rfl
@[simp] theorem vec3_smul_z (t : ℝ) (v : vec3) : (t • v).z = t * v.z := rfl

/-- Dot product of two vectors (`dot` in the source). -/
def dot (u v : vec3) : ℝ := u.x * v.x + u.y * v.y + u.z * v.z

@[simp] theorem dot_mk (a b c d e f : ℝ) :
    dot (vec3.mk a b c) (vec3.mk d e f) = a * d + b * e + c * f := rfl

/-- Squared Euclidean length (`length_squared`). -/
def length_squared (v : vec3) : ℝ := v.x * v.x + v.y * v.y + v.z * v.z

@[simp] theorem length_squared_mk (a b c : ℝ) :
    length_squared (vec3.mk a b c) = a * a + b * b + c * c := rfl

/-- Euclidean length (`length`). -/
def length (v : vec3) : ℝ := Real.sqrt (length_squared v)

/-- Normalization (`unit_vector`): divide by the length. -/
def unit_vector (v : vec3) : vec3 := v / length v

/-- Predicate corresponding to `vec3::near_zero`: every component has
absolute value below 1e-8. -/
def near_zero (v : vec3) : Prop :=
  |v.x| < 1e-8 ∧ |v.y| < 1e-8 ∧ |v.z| < 1e-8

/-- Mirror reflection about a normal (`reflect`): v - 2 dot(v,n) n. -/
def reflect (v n : vec3) : vec3 := v - (2 * dot v n) • n

/-- Snell refraction (`refract`), with `fabs` modelled by the real
absolute value. -/
def refract (uv n : vec3) (etai_over_etat : ℝ) : vec3 :=
  let cos_theta := min (dot (-uv) n) 1
  let r_out_perp := etai_over_etat • (uv + cos_theta • n)
  let r_out_parallel := (-(Real.sqrt |1 - length_squared r_out_perp|)) • n
  r_out_perp + r_out_parallel

/-- Ray, an origin together with a (not necessarily normalized)
direction. -/
structure ray where
  orig : vec3
  dir : vec3

/-- Point at parameter t on a ray: `ray::at`, P(t) = orig + t*dir.
Named at' because `at` is reserved in Lean. -/
def ray.at' (r : ray) (t : ℝ) : vec3 := r.orig + t • r.dir

/-- Lambertian (diffuse) material data: the albedo color. -/
structure lambertian where
  albedo : vec3

/-- Metal (reflective) material data: albedo color and fuzz radius. -/
structure metal where
  albedo : vec3
  fuzz : ℝ

/-- Dielectric (refractive) material data: the index of refraction. -/
structure dielectric where
  ir : ℝ

/-- The constructor `metal::metal(a, f)`: stores the albedo and
initializes fuzz with `f < 1 ? f : 1`. -/
def metal.init (a : vec3) (f : ℝ) : metal :=
  ⟨a, if f < 1 then f else 1⟩

/-- Closed sum of the three material variants of the program. -/
inductive material where
  | lambertianMat (m : lambertian)
  | metalMat (m : metal)
  | dielectricMat (m : dielectric)

/-- Record of a ray-object intersection (`hit_record`): point, normal,
material reference, parameter t, and the front-face flag. -/
@[ext]
structure hit_record where
  p : vec3
  normal : vec3
  mat_ptr : material
  t : ℝ
  front_face : Bool

/-- Default-constructed hit_record, as created by `hit_record temp_rec;`
in the aggregate and by `hit_record rec;` in the integrator: the points
default to (0,0,0).  In C++ the fields t and front_face are left
indeterminate and mat_ptr is a null shared_ptr; none of the three is ever
read before being assigned, so the concrete placeholder values chosen
here (0, false, and a black lambertian) are never observable. -/
def default_rec : hit_record :=
  { p := ⟨0, 0, 0⟩, normal := ⟨0, 0, 0⟩,
    mat_ptr := material.lambertianMat ⟨⟨0, 0, 0⟩⟩, t := 0, front_face := false }

/-- The helper `hit_record::set_face_normal`: front_face is the sign test
dot(r.dir, outward_normal) < 0, and the stored normal is the outward
normal kept as-is on a front face and flipped otherwise. -/
def hit_record.set_face_normal (rec₀ : hit_record) (r : ray) (outward_normal : vec3) :
    hit_record :=
  let ff : Bool := if dot r.dir outward_normal < 0 then true else false
  { rec₀ with front_face := ff,
              normal := if ff then outward_normal else -outward_normal }

/-- Schlick approximation (`dielectric::reflectance`). -/
def reflectance (cosine ref_idx : ℝ) : ℝ :=
  let r0 := (1 - ref_idx) / (1 + ref_idx)
  let r0 := r0 * r0
  r0 + (1 - r0) * (1 - cosine) ^ (5 : ℕ)

/-- The scatter method of `lambertian`.  The oracle argument `rv` is the
vector produced by the rejection sampler `random_in_unit_sphere`, so
`random_unit_vector()` is `unit_vector rv`.  The incoming values of the
out-parameters are received and the final values returned. -/
def lambertian.scatter (m : lambertian) (r_in : ray) (rec₀ : hit_record)
    (rv : vec3) (attenuation : vec3) (scattered : ray) : Bool × vec3 × ray :=
  let scatter_direction := rec₀.normal + unit_vector rv
  let scatter_direction :=
    if near_zero scatter_direction then rec₀.normal else scatter_direction
  (true, m.albedo, ⟨rec₀.p, scatter_direction⟩)

/-- The scatter method of `metal`: reflect the normalized incoming
direction about the stored normal, perturb by fuzz times the unit-sphere
draw `rv`, write both out-parameters, then return the sign test
dot(scattered.dir, normal) > 0. -/
def metal.scatter (m : metal) (r_in : ray) (rec₀ : hit_record)
    (rv : vec3) (attenuation : vec3) (scattered : ray) : Bool × vec3 × ray :=
  let reflected := reflect (unit_vector r_in.dir) rec₀.normal
  let scattered := ray.mk rec₀.p (reflected + m.fuzz • rv)
  let attenuation := m.albedo
  ((if dot scattered.dir rec₀.normal > 0 then true else false), attenuation, scattered)

/-- The scatter method of `dielectric`.  The oracle argument `rd` is the
uniform draw of `random_double()` compared against the Schlick
reflectance. -/
def dielectric.scatter (m : dielectric) (r_in : ray) (rec₀ : hit_record)
    (rd : ℝ) (attenuation : vec3) (scattered : ray) : Bool × vec3 × ray :=
  let attenuation := vec3.mk 1 1 1
  let refraction_ratio := if rec₀.front_face then 1 / m.ir else m.ir
  let unit_direction := unit_vector r_in.dir
  let cos_theta := min (dot (-unit_direction) rec₀.normal) 1
  let sin_theta := Real.sqrt (1 - cos_theta * cos_theta)
  let cannot_refract := refraction_ratio * sin_theta > 1
  let direction :=
    if cannot_refract ∨ reflectance cos_theta refraction_ratio > rd then
      reflect unit_direction rec₀.normal
    else
      refract unit_direction rec₀.normal refraction_ratio
  (true, attenuation, ⟨rec₀.p, direction⟩)

/-- Virtual dispatch of `material::scatter` over the three variants.
The oracle pair carries the unit-sphere draw and the uniform draw used by
whichever variant consumes them. -/
def material.scatter (m : material) (r_in : ray) (rec₀ : hit_record)
    (rv : vec3) (rd : ℝ) (attenuation : vec3) (scattered : ray) : Bool × vec3 × ray :=
  match m with
  | material.lambertianMat l => l.scatter r_in rec₀ rv attenuation scattered
  | material.metalMat mm => mm.scatter r_in rec₀ rv attenuation scattered
  | material.dielectricMat d => d.scatter r_in rec₀ rd attenuation scattered

/-- Sphere primitive: center, radius and material reference. -/
structure sphere where
  center : vec3
  radius : ℝ
  mat_ptr : material

/-- Acceptance tail of `sphere::hit` (the code after the root has been
validated): the mutations rec.t = root; rec.p = r.at(rec.t);
rec.set_face_normal(r, (rec.p - center)/radius); rec.mat_ptr = mat_ptr;
followed by `return true`. -/
def sphere.accept (s : sphere) (r : ray) (root : ℝ) (rec₀ : hit_record) :
    Bool × hit_record :=
  let rec₁ := { rec₀ with t := root }
  let rec₂ := { rec₁ with p := r.at' rec₁.t }
  let outward_normal := (rec₂.p - s.center) / s.radius
  let rec₃ := rec₂.set_face_normal r outward_normal
  let rec₄ := { rec₃ with mat_ptr := s.mat_ptr }
  (true, rec₄)

/-- The method `sphere::hit(r, t_min, t_max, rec)`: solve the quadratic,
reject a negative discriminant, try the smaller root then the larger one
against [t_min, t_max], and on acceptance fill the record.  The bounds
are extended reals; the root comparisons coerce the real root. -/
def sphere.hit (s : sphere) (r : ray) (t_min t_max : EReal) (rec₀ : hit_record) :
    Bool × hit_record :=
  let oc := r.orig - s.center
  let a := length_squared r.dir
  let half_b := dot oc r.dir
  let c := length_squared oc - s.radius * s.radius
  let discriminant := half_b * half_b - a * c
  if discriminant < 0 then (false, rec₀)
  else
    let sqrtd := Real.sqrt discriminant
    let root := (-half_b - sqrtd) / a
    if ((root : EReal) < t_min ∨ (root : EReal) > t_max) then
      let root := (-half_b + sqrtd) / a
      if ((root : EReal) < t_min ∨ (root : EReal) > t_max) then (false, rec₀)
      else s.accept r root rec₀
    else s.accept r root rec₀

/-- The record produced by a successful `sphere::hit` at root `root`: all
five fields of the incoming record are overwritten, so the result depends
only on the sphere, the ray and the root. -/
def sphere.record (s : sphere) (r : ray) (root : ℝ) : hit_record :=
  (s.accept r root default_rec).2

/-- The parameter value at which `sphere::hit` reports a hit over the
bounds [t_min, t_max], if any: the projection of the hit result onto the
(flag, rec.t) observation. -/
def sphere.hitT (s : sphere) (r : ray) (t_min t_max : EReal) : Option ℝ :=
  let res := s.hit r t_min t_max default_rec
  if res.1 then some res.2.t else none

/-- The loop of `hittable_list::hit`: iterate over the objects, querying
each with upper bound `closest_so_far`, and on a reported hit shrink the
bound to the accepted t and copy the temporary record into the
out-record.  The temporary record is threaded through the iterations
exactly as the single `temp_rec` variable is in the source. -/
def hittable_list.hitLoop (r : ray) (t_min : EReal) :
    List sphere → hit_record → Bool → EReal → hit_record → Bool × hit_record
  | [], temp_rec, hit_anything, closest_so_far, out => (hit_anything, out)
  | obj :: rest, temp_rec, hit_anything, closest_so_far, out =>
      let res := obj.hit r t_min closest_so_far temp_rec
      if res.1 then
        hittable_list.hitLoop r t_min rest res.2 true ((res.2.t : ℝ) : EReal) res.2
      else
        hittable_list.hitLoop r t_min rest res.2 hit_anything closest_so_far out

/-- The method `hittable_list::hit`: scan all children in insertion
order starting from `closest_so_far = t_max`, with a default-constructed
temporary record.  In this program every child of the aggregate is a
sphere, so the children are modelled as a list of spheres. -/
def hittable_list.hit (objects : List sphere) (r : ray) (t_min t_max : EReal)
    (out : hit_record) : Bool × hit_record :=
  hittable_list.hitLoop r t_min objects default_rec false t_max out

/-- Abstract hittable, the dynamic type behind `const hittable& world`
taken by the integrator: any implementation of the virtual hit method. -/
structure hittable where
  hit : ray → EReal → EReal → hit_record → Bool × hit_record

/-- The recursive integrator `ray_color(r, world, depth)`.  The oracle
`rnd` supplies, per remaining-depth level, the unit-sphere draw and the
uniform draw consumed by the scatter call of that level.  The scatter
out-parameters start default-constructed (`ray scattered; color
attenuation;`), i.e. as zero vectors. -/
def ray_color (rnd : ℕ → vec3 × ℝ) (r : ray) (world : hittable) (depth : ℤ) : vec3 :=
  if h : depth ≤ 0 then ⟨0, 0, 0⟩
  else
    let res := world.hit r ((0.001 : ℝ) : EReal) ⊤ default_rec
    if res.1 then
      let hrec := res.2
      let sres := material.scatter hrec.mat_ptr r hrec (rnd depth.toNat).1
        (rnd depth.toNat).2 ⟨0, 0, 0⟩ ⟨⟨0, 0, 0⟩, ⟨0, 0, 0⟩⟩
      if sres.1 then sres.2.1 * ray_color rnd sres.2.2 world (depth - 1)
      else ⟨0, 0, 0⟩
    else
      let unit_direction := unit_vector r.dir
      let t := 0.5 * (unit_direction.y + 1.0)
      (1.0 - t) • vec3.mk 1.0 1.0 1.0 + t • vec3.mk 0.5 0.7 1.0
termination_by depth.toNat
decreasing_by
  simp only [Int.not_le] at h
  omega

/-- The clamp helper of rtweekend.hpp. -/
def clamp (x mn mx : ℝ) : ℝ :=
  if x < mn then mn else if x > mx then mx else x

/-- Truncation toward zero, the behavior of `static_cast<int>` on an
in-range double: floor for nonnegative arguments, ceiling for negative
ones. -/
def double_to_int (x : ℝ) : ℤ :=
  if 0 ≤ x then Int.floor x else Int.ceil x

/-- The per-pixel color write of the render loop (part_000 lines
168-180): divide each accumulated channel by the sample count, apply
gamma-2 correction by square root, clamp to [0, 0.999], scale by 256 and
truncate to an integer, producing the (r, g, b) triple sent to the image
sink. -/
def write_color (pixel_color : vec3) (samples_per_pixel : ℕ) : ℤ × ℤ × ℤ :=
  let scale := 1 / (samples_per_pixel : ℝ)
  let r := Real.sqrt (scale * pixel_color.x)
  let g := Real.sqrt (scale * pixel_color.y)
  let b := Real.sqrt (scale * pixel_color.z)
  (double_to_int (256 * clamp r 0 0.999),
   double_to_int (256 * clamp g 0 0.999),
   double_to_int (256 * clamp b 0 0.999))

/-- Unfolded form of the dot product, for component-level reasoning. -/
theorem dot_def (u v : vec3) : dot u v = u.x * v.x + u.y * v.y + u.z * v.z := rfl

/-- The local variable `half_b` of sphere::hit: dot(origin - center,
direction). -/
def sphere.half_b (s : sphere) (r : ray) : ℝ := dot (r.orig - s.center) r.dir

/-- The local variable `c` of sphere::hit: |origin - center|² - radius². -/
def sphere.qc (s : sphere) (r : ray) : ℝ :=
  length_squared (r.orig - s.center) - s.radius * s.radius

/-- The local variable `discriminant` of sphere::hit: half_b² - a·c with
a = |direction|². -/
def sphere.disc (s : sphere) (r : ray) : ℝ :=
  s.half_b r * s.half_b r - length_squared r.dir * s.qc r

/-- The smaller quadratic root tried first by sphere::hit. -/
def sphere.root1 (s : sphere) (r : ray) : ℝ :=
  (-s.half_b r - Real.sqrt (s.disc r)) / length_squared r.dir

/-- The larger quadratic root tried second by sphere::hit. -/
def sphere.root2 (s : sphere) (r : ray) : ℝ :=
  (-s.half_b r + Real.sqrt (s.disc r)) / length_squared r.dir

/-- Root selection of sphere::hit once the discriminant is nonnegative:
accept x if it lies in [lo, hi], else accept y if it lies in [lo, hi],
else reject. -/
def pickRoot (x y : ℝ) (lo hi : EReal) : Option ℝ :=
  if (x : EReal) < lo ∨ (x : EReal) > hi then
    (if (y : EReal) < lo ∨ (y : EReal) > hi then none else some y)
  else some x

theorem length_squared_nonneg (v : vec3) : 0 ≤ length_squared v := by
  unfold length_squared
  nlinarith [mul_self_nonneg v.x, mul_self_nonneg v.y, mul_self_nonneg v.z]

theorem div_le_div_nonneg_denom (x y a : ℝ) (h : x ≤ y) (ha : 0 ≤ a) :
    x / a ≤ y / a := by
  rcases eq_or_lt_of_le ha with h0 | h0
  · rw [← h0]
    simp
  · rw [div_le_div_iff₀ h0 h0]
    nlinarith

/-- The smaller root is at most the larger root (the denominator
|direction|² is nonnegative, and it is zero only in the degenerate case
where both quotients are the junk value 0). -/
theorem sphere.root1_le_root2 (s : sphere) (r : ray) : s.root1 r ≤ s.root2 r := by
  apply div_le_div_nonneg_denom _ _ _ _ (length_squared_nonneg r.dir)
  have := Real.sqrt_nonneg (s.disc r)
  linarith

/-- The acceptance tail fully overwrites the record, so its result does
not depend on the incoming record. -/
theorem sphere.accept_eq (s : sphere) (r : ray) (root : ℝ) (rec₀ : hit_record) :
    s.accept r root rec₀ = (true, s.record r root) := rfl

@[simp] theorem sphere.record_t (s : sphere) (r : ray) (root : ℝ) :
    (s.record r root).t = root := rfl

@[simp] theorem sphere.record_p (s : sphere) (r : ray) (root : ℝ) :
    (s.record r root).p = r.at' root := rfl

@[simp] theorem sphere.record_mat (s : sphere) (r : ray) (root : ℝ) :
    (s.record r root).mat_ptr = s.mat_ptr := rfl

/-- Closed form of the hit observation: reject on a negative
discriminant, otherwise select among the two roots. -/
theorem sphere.hitT_eq (s : sphere) (r : ray) (t_min t_max : EReal) :
    s.hitT r t_min t_max =
      if s.disc r < 0 then none
      else pickRoot (s.root1 r) (s.root2 r) t_min t_max := by
  simp only [sphere.hitT, sphere.hit, sphere.accept_eq, pickRoot, sphere.disc,
    sphere.root1, sphere.root2, sphere.half_b, sphere.qc]
  split_ifs <;> simp_all

/-- The full hit result in terms of the hit observation: a sphere whose
observation is `none` reports no hit and leaves the record untouched; a
sphere whose observation is `some t` reports a hit and replaces the
record with the one computed from the accepted root t, for every
incoming record. -/
theorem sphere.hit_eq (s : sphere) (r : ray) (t_min t_max : EReal) (rec₀ : hit_record) :
    s.hit r t_min t_max rec₀ =
      (match s.hitT r t_min t_max with
       | some t => (true, s.record r t)
       | none => (false, rec₀)) := by
  simp only [sphere.hitT, sphere.hit, sphere.accept_eq]
  split_ifs <;> simp_all

theorem sphere.hit_of_hitT_none (s : sphere) (r : ray) (t_min t_max : EReal)
    (h : s.hitT r t_min t_max = none) (rec₀ : hit_record) :
    s.hit r t_min t_max rec₀ = (false, rec₀) := by
  rw [sphere.hit_eq, h]

theorem sphere.hit_of_hitT_some (s : sphere) (r : ray) (t_min t_max : EReal) (t : ℝ)
    (h : s.hitT r t_min t_max = some t) (rec₀ : hit_record) :
    s.hit r t_min t_max rec₀ = (true, s.record r t) := by
  rw [sphere.hit_eq, h]

/-- A root selected by pickRoot lies in [lo, hi]. -/
theorem pickRoot_mem (x y : ℝ) (lo hi : EReal) (t : ℝ)
    (h : pickRoot x y lo hi = some t) :
    lo ≤ (t : EReal) ∧ (t : EReal) ≤ hi := by
  unfold pickRoot at h
  split_ifs at h with h1 h2
  · injection h with h
    subst h
    push_neg at h2
    exact ⟨h2.1, h2.2⟩
  · injection h with h
    subst h
    push_neg at h1
    exact ⟨h1.1, h1.2⟩

/-- Shrinking the upper bound filters the root selection: with the same
lower bound and a smaller upper bound T ≤ hi, pickRoot returns the same
root when that root is still at most T and nothing otherwise.  This is
the one-object essence of the closest_so_far scan. -/
theorem pickRoot_shrink (x y : ℝ) (lo hi T : EReal) (hxy : x ≤ y) (hT : T ≤ hi) :
    pickRoot x y lo T =
      (match pickRoot x y lo hi with
       | some t => if (t : EReal) ≤ T then some t else none
       | none => none) := by
  have hxy' : (x : EReal) ≤ (y : EReal) := EReal.coe_le_coe_iff.mpr hxy
  rcases hfull : pickRoot x y lo hi with _ | t
  · unfold pickRoot at hfull ⊢
    split_ifs at hfull with h1 h2
    have hx : (x : EReal) < lo ∨ (x : EReal) > T := by
      rcases h1 with h | h
      · exact Or.inl h
      · exact Or.inr (lt_of_le_of_lt hT h)
    have hy : (y : EReal) < lo ∨ (y : EReal) > T := by
      rcases h2 with h | h
      · exact Or.inl h
      · exact Or.inr (lt_of_le_of_lt hT h)
    rw [if_pos hx, if_pos hy]
  · unfold pickRoot at hfull ⊢
    split_ifs at hfull with h1 h2
    · -- the smaller root was rejected by [lo, hi], the larger accepted: t = y
      injection hfull with hfull
      subst hfull
      dsimp only
      push_neg at h2
      have hxlo : (x : EReal) < lo := by
        rcases h1 with h | h
        · exact h
        · exact absurd h (not_lt.mpr (le_trans hxy' h2.2))
      by_cases htT : (y : EReal) ≤ T
      · rw [if_pos htT, if_pos (Or.inl hxlo),
          if_neg (not_or.mpr ⟨not_lt.mpr h2.1, not_lt.mpr htT⟩)]
      · rw [if_neg htT, if_pos (Or.inl hxlo),
          if_pos (Or.inr (not_le.mp htT))]
    · -- the smaller root was accepted by [lo, hi]: t = x
      injection hfull with hfull
      subst hfull
      dsimp only
      push_neg at h1
      by_cases htT : (x : EReal) ≤ T
      · rw [if_pos htT, if_neg (not_or.mpr ⟨not_lt.mpr h1.1, not_lt.mpr htT⟩)]
      · rw [if_neg htT, if_pos (Or.inr (not_le.mp htT)),
          if_pos (Or.inr (lt_of_lt_of_le (not_le.mp htT) hxy'))]

/-- Shrink lemma for the sphere hit observation. -/
theorem sphere.hitT_shrink (s : sphere) (r : ray) (t_min t_max T : EReal)
    (hT : T ≤ t_max) :
    s.hitT r t_min T =
      (match s.hitT r t_min t_max with
       | some t => if (t : EReal) ≤ T then some t else none
       | none => none) := by
  rw [sphere.hitT_eq, sphere.hitT_eq]
  split_ifs with hd
  · rfl
  · exact pickRoot_shrink _ _ _ _ _ (s.root1_le_root2 r) hT

/-- A sphere with no hit in a range has no hit in any shrunken range. -/
theorem sphere.hitT_none_shrink (s : sphere) (r : ray) (t_min t_max T : EReal)
    (hT : T ≤ t_max) (h : s.hitT r t_min t_max = none) :
    s.hitT r t_min T = none := by
  rw [sphere.hitT_shrink s r t_min t_max T hT, h]

/-- A hit surviving the shrunken bound is reported unchanged there. -/
theorem sphere.hitT_some_shrink (s : sphere) (r : ray) (t_min t_max T : EReal) (t : ℝ)
    (hT : T ≤ t_max) (h : s.hitT r t_min t_max = some t) (ht : (t : EReal) ≤ T) :
    s.hitT r t_min T = some t := by
  rw [sphere.hitT_shrink s r t_min t_max T hT, h]
  exact if_pos ht

/-- A hit beyond the shrunken bound is no longer reported. -/
theorem sphere.hitT_gt_shrink (s : sphere) (r : ray) (t_min t_max T : EReal) (t : ℝ)
    (hT : T ≤ t_max) (h : s.hitT r t_min t_max = some t) (ht : ¬(t : EReal) ≤ T) :
    s.hitT r t_min T = none := by
  rw [sphere.hitT_shrink s r t_min t_max T hT, h]
  exact if_neg ht

/-- A hit reported under a shrunken bound is also the hit reported under
the original bound. -/
theorem sphere.hitT_grow (s : sphere) (r : ray) (t_min t_max T : EReal) (u : ℝ)
    (hT : T ≤ t_max) (h : s.hitT r t_min T = some u) :
    s.hitT r t_min t_max = some u := by
  rcases hfull : s.hitT r t_min t_max with _ | t
  · rw [sphere.hitT_shrink s r t_min t_max T hT, hfull] at h
    exact absurd h (by simp)
  · rw [sphere.hitT_shrink s r t_min t_max T hT, hfull] at h
    dsimp only at h
    split_ifs at h
    injection h with h
    rw [h]

/-- The parameter of a reported hit lies in the queried range. -/
theorem sphere.hitT_mem (s : sphere) (r : ray) (t_min t_max : EReal) (t : ℝ)
    (h : s.hitT r t_min t_max = some t) :
    t_min ≤ (t : EReal) ∧ (t : EReal) ≤ t_max := by
  rw [sphere.hitT_eq] at h
  split_ifs at h
  exact pickRoot_mem _ _ _ _ _ h

/-- If every object misses the current range, the scan leaves the flag
and the out-record exactly as they were. -/
theorem hittable_list.hitLoop_none (r : ray) (t_min : EReal) (objs : List sphere) :
    ∀ (temp : hit_record) (ha : Bool) (τ : EReal) (out : hit_record),
      (∀ s ∈ objs, s.hitT r t_min τ = none) →
      hittable_list.hitLoop r t_min objs temp ha τ out = (ha, out) := by
  induction objs with
  | nil =>
    intro temp ha τ out h
    rfl
  | cons o rest ih =>
    intro temp ha τ out h
    have co := h o (List.mem_cons_self o rest)
    simp only [hittable_list.hitLoop, sphere.hit_of_hitT_none o r t_min τ co temp]
    simp only [Bool.false_eq_true, if_false]
    exact ih temp ha τ out (fun s hs => h s (List.mem_cons_of_mem o hs))

/-- If some object hits the current range, the scan returns true
together with the record of a winning object: an object whose reported
parameter is defined over the full current range and is minimal among
all objects' reported parameters over that range. -/
theorem hittable_list.hitLoop_some (r : ray) (t_min : EReal) (objs : List sphere) :
    ∀ (temp : hit_record) (ha : Bool) (τ : EReal) (out : hit_record),
      (∃ s ∈ objs, ∃ ts, s.hitT r t_min τ = some ts) →
      ∃ w ∈ objs, ∃ tw, w.hitT r t_min τ = some tw ∧
        hittable_list.hitLoop r t_min objs temp ha τ out = (true, w.record r tw) ∧
        ∀ s ∈ objs, ∀ t, s.hitT r t_min τ = some t → tw ≤ t := by
  induction objs with
  | nil =>
    intro temp ha τ out hex
    rcases hex with ⟨s, hs, -⟩
    exact absurd hs (List.not_mem_nil s)
  | cons o rest ih =>
    intro temp ha τ out hex
    rcases co : o.hitT r t_min τ with _ | t₀
    · -- the head object misses the range: the scan continues unchanged
      have hloop : hittable_list.hitLoop r t_min (o :: rest) temp ha τ out =
          hittable_list.hitLoop r t_min rest temp ha τ out := by
        simp only [hittable_list.hitLoop, sphere.hit_of_hitT_none o r t_min τ co temp]
        simp only [Bool.false_eq_true, if_false]
      have hex' : ∃ s ∈ rest, ∃ ts, s.hitT r t_min τ = some ts := by
        rcases hex with ⟨s, hs, ts, hts⟩
        rcases List.mem_cons.mp hs with h | h
        · rw [h, co] at hts
          exact absurd hts (by simp)
        · exact ⟨s, h, ts, hts⟩
      rcases ih temp ha τ out hex' with ⟨w, hw, tw, hwt, heq, hmin⟩
      refine ⟨w, List.mem_cons_of_mem o hw, tw, hwt, hloop.trans heq, ?_⟩
      intro s hs t hts
      rcases List.mem_cons.mp hs with h | h
      · rw [h, co] at hts
        exact absurd hts (by simp)
      · exact hmin s h t hts
    · -- the head object hits at t₀: the bound shrinks to t₀
      have hmem := sphere.hitT_mem o r t_min τ t₀ co
      have hloop : hittable_list.hitLoop r t_min (o :: rest) temp ha τ out =
          hittable_list.hitLoop r t_min rest (o.record r t₀) true ((t₀ : ℝ) : EReal)
            (o.record r t₀) := by
        simp only [hittable_list.hitLoop, sphere.hit_of_hitT_some o r t_min τ t₀ co temp]
        simp only [if_true, sphere.record_t]
      by_cases hrest : ∃ s ∈ rest, ∃ ts, s.hitT r t_min ((t₀ : ℝ) : EReal) = some ts
      · -- some later object hits within the shrunken bound and wins
        rcases ih (o.record r t₀) true ((t₀ : ℝ) : EReal) (o.record r t₀) hrest with
          ⟨w, hw, tw, hwt, heq, hmin⟩
        have htw_bounds := sphere.hitT_mem w r t_min ((t₀ : ℝ) : EReal) tw hwt
        have htw_le : tw ≤ t₀ := EReal.coe_le_coe_iff.mp htw_bounds.2
        refine ⟨w, List.mem_cons_of_mem o hw, tw,
          sphere.hitT_grow w r t_min τ ((t₀ : ℝ) : EReal) tw hmem.2 hwt,
          hloop.trans heq, ?_⟩
        intro s hs t hts
        rcases List.mem_cons.mp hs with h | h
        · rw [h, co] at hts
          injection hts with hts
          rw [hts] at htw_le
          exact htw_le
        · by_cases hle : (t : EReal) ≤ ((t₀ : ℝ) : EReal)
          · exact hmin s h t (sphere.hitT_some_shrink s r t_min τ _ t hmem.2 hts hle)
          · have : t₀ < t := EReal.coe_lt_coe_iff.mp (not_le.mp hle)
            exact le_trans htw_le (le_of_lt this)
      · -- no later object survives the shrunken bound: the head wins
        push_neg at hrest
        have hnone : ∀ s ∈ rest, s.hitT r t_min ((t₀ : ℝ) : EReal) = none := by
          intro s hs
          rcases hv : s.hitT r t_min ((t₀ : ℝ) : EReal) with _ | v
          · rfl
          · exact absurd hv (hrest s hs v)
        have hfin := hittable_list.hitLoop_none r t_min rest (o.record r t₀) true
          ((t₀ : ℝ) : EReal) (o.record r t₀) hnone
        refine ⟨o, List.mem_cons_self o rest, t₀, co, hloop.trans hfin, ?_⟩
        intro s hs t hts
        rcases List.mem_cons.mp hs with h | h
        · rw [h, co] at hts
          injection hts with hts
          exact le_of_eq hts
        · by_cases hle : (t : EReal) ≤ ((t₀ : ℝ) : EReal)
          · have := sphere.hitT_some_shrink s r t_min τ _ t hmem.2 hts hle
            rw [hnone s h] at this
            exact absurd this (by simp)
          · exact le_of_lt (EReal.coe_lt_coe_iff.mp (not_le.mp hle))

/-- C1: over bounds tMin ≤ tMax, the aggregate reports a hit exactly
when some child reports one over the full range; on a hit the returned
parameter is a child's reported parameter and is minimal among all
children's reported parameters; and both the hit flag and the returned
parameter are unchanged under any permutation of the children. -/
theorem C1_nearest_hit (objs : List sphere) (r : ray) (t_min t_max : EReal)
    (hb : t_min ≤ t_max) (out : hit_record) :
    ((hittable_list.hit objs r t_min t_max out).1 = true ↔
      ∃ s ∈ objs, ∃ ts, s.hitT r t_min t_max = some ts) ∧
    ((hittable_list.hit objs r t_min t_max out).1 = true →
      (∃ s ∈ objs, s.hitT r t_min t_max =
        some (hittable_list.hit objs r t_min t_max out).2.t) ∧
      ∀ s ∈ objs, ∀ t, s.hitT r t_min t_max = some t →
        (hittable_list.hit objs r t_min t_max out).2.t ≤ t) ∧
    (∀ objs' : List sphere, objs.Perm objs' →
      (hittable_list.hit objs' r t_min t_max out).1 =
        (hittable_list.hit objs r t_min t_max out).1 ∧
      ((hittable_list.hit objs r t_min t_max out).1 = true →
        (hittable_list.hit objs' r t_min t_max out).2.t =
          (hittable_list.hit objs r t_min t_max out).2.t)) := by
  have main : ∀ (L : List sphere),
      ((∃ s ∈ L, ∃ ts, s.hitT r t_min t_max = some ts) →
        ∃ w ∈ L, ∃ tw, w.hitT r t_min t_max = some tw ∧
          hittable_list.hit L r t_min t_max out = (true, w.record r tw) ∧
          ∀ s ∈ L, ∀ t, s.hitT r t_min t_max = some t → tw ≤ t) ∧
      ((¬ ∃ s ∈ L, ∃ ts, s.hitT r t_min t_max = some ts) →
        hittable_list.hit L r t_min t_max out = (false, out)) := by
    intro L
    constructor
    · intro hex
      exact hittable_list.hitLoop_some r t_min L default_rec false t_max out hex
    · intro hnone
      push_neg at hnone
      apply hittable_list.hitLoop_none
      intro s hs
      rcases hv : s.hitT r t_min t_max with _ | v
      · rfl
      · exact absurd hv (hnone s hs v)
  by_cases hex : ∃ s ∈ objs, ∃ ts, s.hitT r t_min t_max = some ts
  · rcases (main objs).1 hex with ⟨w, hw, tw, hwt, heq, hmin⟩
    have h1 : (hittable_list.hit objs r t_min t_max out).1 = true := by rw [heq]
    have ht : (hittable_list.hit objs r t_min t_max out).2.t = tw := by
      rw [heq, sphere.record_t]
    refine ⟨⟨fun _ => hex, fun _ => h1⟩, fun _ => ⟨⟨w, hw, by rw [ht]; exact hwt⟩, ?_⟩, ?_⟩
    · intro s hs t hts
      rw [ht]
      exact hmin s hs t hts
    · intro objs' hp
      have hex' : ∃ s ∈ objs', ∃ ts, s.hitT r t_min t_max = some ts := by
        rcases hex with ⟨s, hs, ts, hts⟩
        exact ⟨s, hp.mem_iff.mp hs, ts, hts⟩
      rcases (main objs').1 hex' with ⟨w', hw', tw', hwt', heq', hmin'⟩
      have h1' : (hittable_list.hit objs' r t_min t_max out).1 = true := by rw [heq']
      have ht' : (hittable_list.hit objs' r t_min t_max out).2.t = tw' := by
        rw [heq', sphere.record_t]
      have hle1 : tw ≤ tw' := hmin w' (hp.mem_iff.mpr hw') tw' hwt'
      have hle2 : tw' ≤ tw := hmin' w (hp.mem_iff.mp hw) tw hwt
      refine ⟨by rw [h1, h1'], fun _ => ?_⟩
      rw [ht, ht']
      exact le_antisymm hle2 hle1
  · have heq := (main objs).2 hex
    have h1 : (hittable_list.hit objs r t_min t_max out).1 = false := by rw [heq]
    refine ⟨⟨fun hc => absurd (h1 ▸ hc) (by simp), fun hc => absurd hc hex⟩,
      fun hc => absurd (h1 ▸ hc) (by simp), ?_⟩
    intro objs' hp
    have hex' : ¬ ∃ s ∈ objs', ∃ ts, s.hitT r t_min t_max = some ts := by
      intro ⟨s, hs, ts, hts⟩
      exact hex ⟨s, hp.mem_iff.mpr hs, ts, hts⟩
    have heq' := (main objs').2 hex'
    have h1' : (hittable_list.hit objs' r t_min t_max out).1 = false := by rw [heq']
    exact ⟨by rw [h1, h1'], fun hc => absurd (h1 ▸ hc) (by simp)⟩

/-- Witness for C1: a single sphere straight ahead of the origin, with
bounds 0 ≤ ⊤. -/
theorem C1_nearest_hit_witness :
    ((0 : EReal) ≤ ⊤) ∧
    ((hittable_list.hit [⟨⟨0, 0, 2⟩, 1, material.lambertianMat ⟨⟨0, 0, 0⟩⟩⟩]
        ⟨⟨0, 0, 0⟩, ⟨0, 0, 1⟩⟩ 0 ⊤ default_rec).1 = true ↔
      ∃ s ∈ [(⟨⟨0, 0, 2⟩, 1, material.lambertianMat ⟨⟨0, 0, 0⟩⟩⟩ : sphere)], ∃ ts,
        s.hitT ⟨⟨0, 0, 0⟩, ⟨0, 0, 1⟩⟩ 0 ⊤ = some ts) := by
  constructor
  · exact le_top
  · exact (C1_nearest_hit [⟨⟨0, 0, 2⟩, 1, material.lambertianMat ⟨⟨0, 0, 0⟩⟩⟩]
      ⟨⟨0, 0, 0⟩, ⟨0, 0, 1⟩⟩ 0 ⊤ le_top default_rec).1

@[simp] theorem sphere.record_front_face (s : sphere) (r : ray) (root : ℝ) :
    (s.record r root).front_face =
      (if dot r.dir ((r.at' root - s.center) / s.radius) < 0 then true else false) := rfl

theorem sphere.record_normal (s : sphere) (r : ray) (root : ℝ) :
    (s.record r root).normal =
      (if (s.record r root).front_face then (r.at' root - s.center) / s.radius
       else -((r.at' root - s.center) / s.radius)) := rfl

/-- C2 counterexample: two coincident spheres with different materials,
both hit by the ray at exactly t = 1.  The claim predicts the first
child's record is returned, but the scan's acceptance test is inclusive
(`root > t_max` rejects, so root = closest_so_far is accepted), hence the
second child replaces the record and the returned material is the second
sphere's. -/
theorem C2_counterexample :
    sphere.hitT ⟨⟨0, 0, 2⟩, 1, material.lambertianMat ⟨⟨0, 0, 0⟩⟩⟩
        ⟨⟨0, 0, 0⟩, ⟨0, 0, 1⟩⟩ ((0 : ℝ) : EReal) ((100 : ℝ) : EReal) = some 1 ∧
    sphere.hitT ⟨⟨0, 0, 2⟩, 1, material.lambertianMat ⟨⟨1, 1, 1⟩⟩⟩
        ⟨⟨0, 0, 0⟩, ⟨0, 0, 1⟩⟩ ((0 : ℝ) : EReal) ((100 : ℝ) : EReal) = some 1 ∧
    (hittable_list.hit
        [⟨⟨0, 0, 2⟩, 1, material.lambertianMat ⟨⟨0, 0, 0⟩⟩⟩,
         ⟨⟨0, 0, 2⟩, 1, material.lambertianMat ⟨⟨1, 1, 1⟩⟩⟩]
        ⟨⟨0, 0, 0⟩, ⟨0, 0, 1⟩⟩ ((0 : ℝ) : EReal) ((100 : ℝ) : EReal) default_rec).2.mat_ptr =
      material.lambertianMat ⟨⟨1, 1, 1⟩⟩ ∧
    material.lambertianMat ⟨⟨1, 1, 1⟩⟩ ≠ material.lambertianMat ⟨⟨0, 0, 0⟩⟩ := by
  have h₁ : sphere.hitT ⟨⟨0, 0, 2⟩, 1, material.lambertianMat ⟨⟨0, 0, 0⟩⟩⟩
      ⟨⟨0, 0, 0⟩, ⟨0, 0, 1⟩⟩ ((0 : ℝ) : EReal) ((100 : ℝ) : EReal) = some 1 := by
    rw [sphere.hitT_eq]
    norm_num [sphere.disc, sphere.half_b, sphere.qc, sphere.root1, sphere.root2,
      pickRoot, EReal.coe_lt_coe_iff, Real.sqrt_one]
    exact_mod_cast (by norm_num : (1 : ℝ) ≤ 100)
  have h₂ : sphere.hitT ⟨⟨0, 0, 2⟩, 1, material.lambertianMat ⟨⟨1, 1, 1⟩⟩⟩
      ⟨⟨0, 0, 0⟩, ⟨0, 0, 1⟩⟩ ((0 : ℝ) : EReal) ((100 : ℝ) : EReal) = some 1 := by
    rw [sphere.hitT_eq]
    norm_num [sphere.disc, sphere.half_b, sphere.qc, sphere.root1, sphere.root2,
      pickRoot, EReal.coe_lt_coe_iff, Real.sqrt_one]
    exact_mod_cast (by norm_num : (1 : ℝ) ≤ 100)
  have h₂' : sphere.hitT ⟨⟨0, 0, 2⟩, 1, material.lambertianMat ⟨⟨1, 1, 1⟩⟩⟩
      ⟨⟨0, 0, 0⟩, ⟨0, 0, 1⟩⟩ ((0 : ℝ) : EReal) ((1 : ℝ) : EReal) = some 1 :=
    sphere.hitT_some_shrink _ _ _ _ _ _
      (EReal.coe_le_coe_iff.mpr (by norm_num)) h₂ (le_refl _)
  have hrun : hittable_list.hit
      [⟨⟨0, 0, 2⟩, 1, material.lambertianMat ⟨⟨0, 0, 0⟩⟩⟩,
       ⟨⟨0, 0, 2⟩, 1, material.lambertianMat ⟨⟨1, 1, 1⟩⟩⟩]
      ⟨⟨0, 0, 0⟩, ⟨0, 0, 1⟩⟩ ((0 : ℝ) : EReal) ((100 : ℝ) : EReal) default_rec =
      (true, sphere.record ⟨⟨0, 0, 2⟩, 1, material.lambertianMat ⟨⟨1, 1, 1⟩⟩⟩
        ⟨⟨0, 0, 0⟩, ⟨0, 0, 1⟩⟩ 1) := by
    simp only [hittable_list.hit, hittable_list.hitLoop,
      sphere.hit_of_hitT_some _ _ _ _ _ h₁ default_rec, if_true, sphere.record_t]
    simp only [sphere.hit_of_hitT_some _ _ _ _ _ h₂' _, if_true]
  refine ⟨h₁, h₂, ?_, by simp⟩
  rw [hrun, sphere.record_mat]

/-- C2 amended: in the aggregate scan a later child's candidate hit
replaces the current best whenever its accepted t is at most
closest_so_far (the acceptance test `root > t_max` is inclusive of the
bound), so when two children produce hits at exactly equal t, the LAST
child in insertion order provides the returned hit record. -/
theorem C2_equal_t_last_wins (s₁ s₂ : sphere) (r : ray) (t_min t_max : EReal) (t : ℝ)
    (h₁ : s₁.hitT r t_min t_max = some t) (h₂ : s₂.hitT r t_min t_max = some t)
    (out : hit_record) :
    hittable_list.hit [s₁, s₂] r t_min t_max out = (true, s₂.record r t) := by
  have hmem := sphere.hitT_mem s₁ r t_min t_max t h₁
  have h₂' : s₂.hitT r t_min ((t : ℝ) : EReal) = some t :=
    sphere.hitT_some_shrink s₂ r t_min t_max _ t hmem.2 h₂ (le_refl _)
  simp only [hittable_list.hit, hittable_list.hitLoop,
    sphere.hit_of_hitT_some _ _ _ _ _ h₁ default_rec, if_true, sphere.record_t]
  simp only [sphere.hit_of_hitT_some _ _ _ _ _ h₂' _, if_true]

/-- Witness for the amended C2: the coincident-sphere tie at t = 1. -/
theorem C2_equal_t_last_wins_witness :
    hittable_list.hit
        [⟨⟨0, 0, 2⟩, 1, material.lambertianMat ⟨⟨0, 0, 0⟩⟩⟩,
         ⟨⟨0, 0, 2⟩, 1, material.lambertianMat ⟨⟨1, 1, 1⟩⟩⟩]
        ⟨⟨0, 0, 0⟩, ⟨0, 0, 1⟩⟩ ((0 : ℝ) : EReal) ((100 : ℝ) : EReal) default_rec =
      (true, sphere.record ⟨⟨0, 0, 2⟩, 1, material.lambertianMat ⟨⟨1, 1, 1⟩⟩⟩
        ⟨⟨0, 0, 0⟩, ⟨0, 0, 1⟩⟩ 1) :=
  C2_equal_t_last_wins _ _ _ _ _ 1
    (by
      rw [sphere.hitT_eq]
      norm_num [sphere.disc, sphere.half_b, sphere.qc, sphere.root1, sphere.root2,
        pickRoot, EReal.coe_lt_coe_iff, Real.sqrt_one]
      exact_mod_cast (by norm_num : (1 : ℝ) ≤ 100))
    (by
      rw [sphere.hitT_eq]
      norm_num [sphere.disc, sphere.half_b, sphere.qc, sphere.root1, sphere.root2,
        pickRoot, EReal.coe_lt_coe_iff, Real.sqrt_one]
      exact_mod_cast (by norm_num : (1 : ℝ) ≤ 100))
    default_rec

/-- C3: sphere::hit solves the quadratic with discriminant
half_b² - a·c (stored in sphere.disc); a negative discriminant reports
no hit; otherwise the smaller root (-half_b - sqrt(disc))/a is accepted
when it lies in [tMin, tMax], else the larger root
(-half_b + sqrt(disc))/a when it lies in [tMin, tMax], else no hit; on
acceptance rec.t is the accepted root and rec.p = origin + t·direction
exactly. -/
theorem C3_sphere_hit_roots (s : sphere) (r : ray) (t_min t_max : EReal)
    (rec₀ : hit_record) :
    (s.half_b r = dot (r.orig - s.center) r.dir ∧
      s.disc r = s.half_b r * s.half_b r -
        length_squared r.dir * (length_squared (r.orig - s.center) - s.radius * s.radius) ∧
      s.root1 r = (-s.half_b r - Real.sqrt (s.disc r)) / length_squared r.dir ∧
      s.root2 r = (-s.half_b r + Real.sqrt (s.disc r)) / length_squared r.dir) ∧
    (s.disc r < 0 → s.hit r t_min t_max rec₀ = (false, rec₀)) ∧
    (0 ≤ s.disc r →
      ((t_min ≤ (s.root1 r : EReal) ∧ (s.root1 r : EReal) ≤ t_max) →
        s.hit r t_min t_max rec₀ = (true, s.record r (s.root1 r)) ∧
        (s.record r (s.root1 r)).t = s.root1 r ∧
        (s.record r (s.root1 r)).p = r.orig + s.root1 r • r.dir) ∧
      (¬(t_min ≤ (s.root1 r : EReal) ∧ (s.root1 r : EReal) ≤ t_max) →
        (t_min ≤ (s.root2 r : EReal) ∧ (s.root2 r : EReal) ≤ t_max) →
        s.hit r t_min t_max rec₀ = (true, s.record r (s.root2 r)) ∧
        (s.record r (s.root2 r)).t = s.root2 r ∧
        (s.record r (s.root2 r)).p = r.orig + s.root2 r • r.dir) ∧
      (¬(t_min ≤ (s.root1 r : EReal) ∧ (s.root1 r : EReal) ≤ t_max) →
        ¬(t_min ≤ (s.root2 r : EReal) ∧ (s.root2 r : EReal) ≤ t_max) →
        s.hit r t_min t_max rec₀ = (false, rec₀))) := by
  refine ⟨⟨rfl, rfl, rfl, rfl⟩, ?_, ?_⟩
  · intro hd
    rw [sphere.hit_eq, sphere.hitT_eq, if_pos hd]
  · intro hd
    refine ⟨?_, ?_, ?_⟩
    · rintro ⟨ha, hb⟩
      have hp : pickRoot (s.root1 r) (s.root2 r) t_min t_max = some (s.root1 r) := by
        unfold pickRoot
        rw [if_neg (not_or.mpr ⟨not_lt.mpr ha, not_lt.mpr hb⟩)]
      rw [sphere.hit_eq, sphere.hitT_eq, if_neg (not_lt.mpr hd), hp]
      exact ⟨rfl, rfl, rfl⟩
    · intro hn
      rintro ⟨ha, hb⟩
      have cond1 : (s.root1 r : EReal) < t_min ∨ (s.root1 r : EReal) > t_max := by
        rcases not_and_or.mp hn with h | h
        · exact Or.inl (not_le.mp h)
        · exact Or.inr (not_le.mp h)
      have hp : pickRoot (s.root1 r) (s.root2 r) t_min t_max = some (s.root2 r) := by
        unfold pickRoot
        rw [if_pos cond1, if_neg (not_or.mpr ⟨not_lt.mpr ha, not_lt.mpr hb⟩)]
      rw [sphere.hit_eq, sphere.hitT_eq, if_neg (not_lt.mpr hd), hp]
      exact ⟨rfl, rfl, rfl⟩
    · intro hn1 hn2
      have cond1 : (s.root1 r : EReal) < t_min ∨ (s.root1 r : EReal) > t_max := by
        rcases not_and_or.mp hn1 with h | h
        · exact Or.inl (not_le.mp h)
        · exact Or.inr (not_le.mp h)
      have cond2 : (s.root2 r : EReal) < t_min ∨ (s.root2 r : EReal) > t_max := by
        rcases not_and_or.mp hn2 with h | h
        · exact Or.inl (not_le.mp h)
        · exact Or.inr (not_le.mp h)
      have hp : pickRoot (s.root1 r) (s.root2 r) t_min t_max = none := by
        unfold pickRoot
        rw [if_pos cond1, if_pos cond2]
      rw [sphere.hit_eq, sphere.hitT_eq, if_neg (not_lt.mpr hd), hp]

/-- Witness for C3: a side-aimed ray whose discriminant is negative. -/
theorem C3_sphere_hit_roots_witness :
    sphere.disc ⟨⟨0, 0, 2⟩, 1, material.lambertianMat ⟨⟨0, 0, 0⟩⟩⟩
        ⟨⟨0, 0, 0⟩, ⟨0, 1, 0⟩⟩ < 0 ∧
    sphere.hit ⟨⟨0, 0, 2⟩, 1, material.lambertianMat ⟨⟨0, 0, 0⟩⟩⟩
        ⟨⟨0, 0, 0⟩, ⟨0, 1, 0⟩⟩ ((0 : ℝ) : EReal) ((100 : ℝ) : EReal) default_rec =
      (false, default_rec) := by
  have hd : sphere.disc ⟨⟨0, 0, 2⟩, 1, material.lambertianMat ⟨⟨0, 0, 0⟩⟩⟩
      ⟨⟨0, 0, 0⟩, ⟨0, 1, 0⟩⟩ < 0 := by
    norm_num [sphere.disc, sphere.half_b, sphere.qc]
  exact ⟨hd, (C3_sphere_hit_roots _ _ _ _ default_rec).2.1 hd⟩

/-- C4: on every accepted sphere hit, front_face is true exactly when
dot(direction, outward_normal) < 0 with outward_normal
= (rec.p - center)/radius, and the stored normal is the outward normal
when front_face holds and its negation otherwise. -/
theorem C4_front_face (s : sphere) (r : ray) (t_min t_max : EReal) (rec₀ : hit_record)
    (h : (s.hit r t_min t_max rec₀).1 = true) :
    ((s.hit r t_min t_max rec₀).2.front_face = true ↔
      dot r.dir (((s.hit r t_min t_max rec₀).2.p - s.center) / s.radius) < 0) ∧
    (s.hit r t_min t_max rec₀).2.normal =
      (if (s.hit r t_min t_max rec₀).2.front_face then
        ((s.hit r t_min t_max rec₀).2.p - s.center) / s.radius
      else -(((s.hit r t_min t_max rec₀).2.p - s.center) / s.radius)) := by
  rcases hT : s.hitT r t_min t_max with _ | t
  · rw [sphere.hit_of_hitT_none _ _ _ _ hT rec₀] at h
    exact absurd h (by simp)
  · rw [sphere.hit_of_hitT_some _ _ _ _ _ hT rec₀]
    dsimp only
    rw [sphere.record_p]
    constructor
    · rw [sphere.record_front_face]
      by_cases hd : dot r.dir ((r.at' t - s.center) / s.radius) < 0
      · simp [hd]
      · simp [hd]
    · exact sphere.record_normal s r t

/-- Witness for C4: the on-axis hit at t = 1 from outside the sphere. -/
theorem C4_front_face_witness :
    ((sphere.hit ⟨⟨0, 0, 2⟩, 1, material.lambertianMat ⟨⟨0, 0, 0⟩⟩⟩
        ⟨⟨0, 0, 0⟩, ⟨0, 0, 1⟩⟩ ((0 : ℝ) : EReal) ((100 : ℝ) : EReal)
        default_rec).2.front_face = true ↔
      dot (vec3.mk 0 0 1)
        (((sphere.hit ⟨⟨0, 0, 2⟩, 1, material.lambertianMat ⟨⟨0, 0, 0⟩⟩⟩
            ⟨⟨0, 0, 0⟩, ⟨0, 0, 1⟩⟩ ((0 : ℝ) : EReal) ((100 : ℝ) : EReal)
            default_rec).2.p - ⟨0, 0, 2⟩) / (1 : ℝ)) < 0) ∧
    (sphere.hit ⟨⟨0, 0, 2⟩, 1, material.lambertianMat ⟨⟨0, 0, 0⟩⟩⟩
        ⟨⟨0, 0, 0⟩, ⟨0, 0, 1⟩⟩ ((0 : ℝ) : EReal) ((100 : ℝ) : EReal)
        default_rec).2.normal =
      (if (sphere.hit ⟨⟨0, 0, 2⟩, 1, material.lambertianMat ⟨⟨0, 0, 0⟩⟩⟩
            ⟨⟨0, 0, 0⟩, ⟨0, 0, 1⟩⟩ ((0 : ℝ) : EReal) ((100 : ℝ) : EReal)
            default_rec).2.front_face then
        ((sphere.hit ⟨⟨0, 0, 2⟩, 1, material.lambertianMat ⟨⟨0, 0, 0⟩⟩⟩
            ⟨⟨0, 0, 0⟩, ⟨0, 0, 1⟩⟩ ((0 : ℝ) : EReal) ((100 : ℝ) : EReal)
            default_rec).2.p - ⟨0, 0, 2⟩) / (1 : ℝ)
      else -(((sphere.hit ⟨⟨0, 0, 2⟩, 1, material.lambertianMat ⟨⟨0, 0, 0⟩⟩⟩
            ⟨⟨0, 0, 0⟩, ⟨0, 0, 1⟩⟩ ((0 : ℝ) : EReal) ((100 : ℝ) : EReal)
            default_rec).2.p - ⟨0, 0, 2⟩) / (1 : ℝ))) :=
  C4_front_face ⟨⟨0, 0, 2⟩, 1, material.lambertianMat ⟨⟨0, 0, 0⟩⟩⟩
    ⟨⟨0, 0, 0⟩, ⟨0, 0, 1⟩⟩ ((0 : ℝ) : EReal) ((100 : ℝ) : EReal) default_rec
    (by
      rw [sphere.hit_of_hitT_some _ _ _ _ 1
        (by
          rw [sphere.hitT_eq]
          norm_num [sphere.disc, sphere.half_b, sphere.qc, sphere.root1, sphere.root2,
            pickRoot, EReal.coe_lt_coe_iff, Real.sqrt_one]
          exact_mod_cast (by norm_num : (1 : ℝ) ≤ 100))
        default_rec])

/-- C7: whenever sphere::hit reports no hit, the caller's record is
returned entirely unmodified (every field: t, p, normal, front_face and
the material reference).  The sphere itself is passed by value to a pure
function in this model, mirroring the const method that never writes the
sphere's state. -/
theorem C7_no_hit_preserves_record (s : sphere) (r : ray) (t_min t_max : EReal)
    (rec₀ : hit_record) (h : (s.hit r t_min t_max rec₀).1 = false) :
    (s.hit r t_min t_max rec₀).2 = rec₀ := by
  rcases hT : s.hitT r t_min t_max with _ | t
  · rw [sphere.hit_of_hitT_none _ _ _ _ hT rec₀]
  · rw [sphere.hit_of_hitT_some _ _ _ _ _ hT rec₀] at h
    exact absurd h (by simp)

/-- Witness for C7: the side-aimed miss leaves the record unchanged. -/
theorem C7_no_hit_preserves_record_witness :
    (sphere.hit ⟨⟨0, 0, 2⟩, 1, material.lambertianMat ⟨⟨0, 0, 0⟩⟩⟩
        ⟨⟨0, 0, 0⟩, ⟨0, 1, 0⟩⟩ ((0 : ℝ) : EReal) ((100 : ℝ) : EReal)
        default_rec).2 = default_rec :=
  C7_no_hit_preserves_record _ _ _ _ default_rec
    (by
      rw [sphere.hit_of_hitT_none _ _ _ _
        (by
          rw [sphere.hitT_eq]
          norm_num [sphere.disc, sphere.half_b, sphere.qc]) default_rec])

/-- C10: reflection about a unit normal is an involution: for every
vector v and every n with dot(n, n) = 1, reflect(reflect(v, n), n) = v,
where reflect(v, n) = v - 2 dot(v, n) n. -/
theorem C10_reflect_involution (v n : vec3) (h : dot n n = 1) :
    reflect (reflect v n) n = v := by
  rw [dot_def] at h
  ext
  · simp only [reflect, dot_def, vec3_sub_x, vec3_sub_y, vec3_sub_z,
      vec3_smul_x, vec3_smul_y, vec3_smul_z]
    linear_combination (4 * (v.x * n.x + v.y * n.y + v.z * n.z) * n.x) * h
  · simp only [reflect, dot_def, vec3_sub_x, vec3_sub_y, vec3_sub_z,
      vec3_smul_x, vec3_smul_y, vec3_smul_z]
    linear_combination (4 * (v.x * n.x + v.y * n.y + v.z * n.z) * n.y) * h
  · simp only [reflect, dot_def, vec3_sub_x, vec3_sub_y, vec3_sub_z,
      vec3_smul_x, vec3_smul_y, vec3_smul_z]
    linear_combination (4 * (v.x * n.x + v.y * n.y + v.z * n.z) * n.z) * h

/-- Witness for C10 at v = (1,0,0), n = (0,0,1). -/
theorem C10_reflect_involution_witness :
    reflect (reflect ⟨1, 0, 0⟩ ⟨0, 0, 1⟩) ⟨0, 0, 1⟩ = (⟨1, 0, 0⟩ : vec3) :=
  C10_reflect_involution ⟨1, 0, 0⟩ ⟨0, 0, 1⟩ (by norm_num [dot_def])

/-- C5 counterexample: the metal constructor clamps fuzz only from
above (`f < 1 ? f : 1`), so the argument -1 is stored unchanged and the
constructed fuzz is not in [0, 1]. -/
theorem C5_counterexample :
    ¬ (0 ≤ (metal.init ⟨0, 0, 0⟩ (-1)).fuzz ∧ (metal.init ⟨0, 0, 0⟩ (-1)).fuzz ≤ 1) := by
  norm_num [metal.init]

/-- C5 amended: construction clamps the supplied fuzz value from above
to at most 1 (arguments below 1 are stored unchanged), so the stored
fuzz always satisfies fuzz ≤ 1, and it lies in [0, 1] whenever the
supplied argument is nonnegative. -/
theorem C5_fuzz_clamped (a : vec3) (f : ℝ) :
    (metal.init a f).fuzz ≤ 1 ∧
      (0 ≤ f → 0 ≤ (metal.init a f).fuzz ∧ (metal.init a f).fuzz ≤ 1) := by
  unfold metal.init
  dsimp only
  split_ifs with hf
  · exact ⟨le_of_lt hf, fun h0 => ⟨h0, le_of_lt hf⟩⟩
  · exact ⟨le_refl 1, fun h0 => ⟨zero_le_one, le_refl 1⟩⟩

/-- Witness for the amended C5 at f = 1/2. -/
theorem C5_fuzz_clamped_witness :
    0 ≤ (metal.init ⟨0, 0, 0⟩ (1 / 2)).fuzz ∧ (metal.init ⟨0, 0, 0⟩ (1 / 2)).fuzz ≤ 1 :=
  (C5_fuzz_clamped ⟨0, 0, 0⟩ (1 / 2)).2 (by norm_num)

/-- C9: metal::scatter writes both out-parameters (attenuation := albedo
and scattered := the fuzzed reflected ray) before the sign test, so the
returned values never depend on the caller's incoming values even when
the result is false; concretely, a head-on internal reflection returns
false with the attenuation overwritten away from its initial value. -/
theorem C9_metal_scatter_overwrites :
    (∀ (m : metal) (r_in : ray) (rec₀ : hit_record) (rv att₀ : vec3) (sc₀ : ray),
        (m.scatter r_in rec₀ rv att₀ sc₀).2.1 = m.albedo ∧
        (m.scatter r_in rec₀ rv att₀ sc₀).2.2 =
          ray.mk rec₀.p (reflect (unit_vector r_in.dir) rec₀.normal + m.fuzz • rv)) ∧
    ((metal.scatter ⟨⟨1/2, 1/2, 1/2⟩, 0⟩ ⟨⟨0, 0, 0⟩, ⟨0, 0, 1⟩⟩
        { p := ⟨0, 0, 0⟩, normal := ⟨0, 0, 1⟩,
          mat_ptr := material.lambertianMat ⟨⟨0, 0, 0⟩⟩, t := 0, front_face := true }
        ⟨0, 0, 0⟩ ⟨0, 0, 0⟩ ⟨⟨0, 0, 0⟩, ⟨0, 0, 0⟩⟩).1 = false ∧
      (metal.scatter ⟨⟨1/2, 1/2, 1/2⟩, 0⟩ ⟨⟨0, 0, 0⟩, ⟨0, 0, 1⟩⟩
        { p := ⟨0, 0, 0⟩, normal := ⟨0, 0, 1⟩,
          mat_ptr := material.lambertianMat ⟨⟨0, 0, 0⟩⟩, t := 0, front_face := true }
        ⟨0, 0, 0⟩ ⟨0, 0, 0⟩ ⟨⟨0, 0, 0⟩, ⟨0, 0, 0⟩⟩).2.1 ≠ (⟨0, 0, 0⟩ : vec3)) := by
  refine ⟨fun m r_in rec₀ rv att₀ sc₀ => ⟨rfl, rfl⟩, ?_, ?_⟩
  · norm_num [metal.scatter, reflect, unit_vector, length, dot_def,
      length_squared, Real.sqrt_one]
  · norm_num [metal.scatter, vec3.ext_iff]

/-- Helper: one output channel of write_color always lands in [0, 255]:
the clamp confines the gamma-corrected value to [0, 0.999], so 256 times
it lies in [0, 255.744) and truncation gives an integer in [0, 255]. -/
theorem write_color_channel_bound (u : ℝ) :
    0 ≤ double_to_int (256 * clamp (Real.sqrt u) 0 0.999) ∧
      double_to_int (256 * clamp (Real.sqrt u) 0 0.999) ≤ 255 := by
  have hc : 0 ≤ clamp (Real.sqrt u) 0 0.999 ∧ clamp (Real.sqrt u) 0 0.999 ≤ 0.999 := by
    unfold clamp
    split_ifs with h1 h2
    · norm_num
    · norm_num
    · push_neg at h1 h2
      exact ⟨h1, h2⟩
  have h0 : (0 : ℝ) ≤ 256 * clamp (Real.sqrt u) 0 0.999 := by nlinarith [hc.1]
  have hlt : (256 : ℝ) * clamp (Real.sqrt u) 0 0.999 < 256 := by nlinarith [hc.2]
  unfold double_to_int
  rw [if_pos h0]
  constructor
  · exact Int.floor_nonneg.mpr h0
  · have : (⌊256 * clamp (Real.sqrt u) 0 0.999⌋ : ℤ) < 256 := by
      rw [Int.floor_lt]
      exact_mod_cast hlt
    omega

/-- C8: for nonnegative accumulated channel sums and at least one sample
per pixel, each of the three integers emitted for the pixel lies in
[0, 255]. -/
theorem C8_output_in_range (pixel_color : vec3) (samples_per_pixel : ℕ)
    (hx : 0 ≤ pixel_color.x) (hy : 0 ≤ pixel_color.y) (hz : 0 ≤ pixel_color.z)
    (hs : 1 ≤ samples_per_pixel) :
    0 ≤ (write_color pixel_color samples_per_pixel).1 ∧
      (write_color pixel_color samples_per_pixel).1 ≤ 255 ∧
      0 ≤ (write_color pixel_color samples_per_pixel).2.1 ∧
      (write_color pixel_color samples_per_pixel).2.1 ≤ 255 ∧
      0 ≤ (write_color pixel_color samples_per_pixel).2.2 ∧
      (write_color pixel_color samples_per_pixel).2.2 ≤ 255 := by
  obtain ⟨a1, a2⟩ := write_color_channel_bound (1 / (samples_per_pixel : ℝ) * pixel_color.x)
  obtain ⟨b1, b2⟩ := write_color_channel_bound (1 / (samples_per_pixel : ℝ) * pixel_color.y)
  obtain ⟨c1, c2⟩ := write_color_channel_bound (1 / (samples_per_pixel : ℝ) * pixel_color.z)
  exact ⟨a1, a2, b1, b2, c1, c2⟩

/-- Witness for C8 at the zero accumulator and one sample. -/
theorem C8_output_in_range_witness :
    0 ≤ (write_color ⟨0, 0, 0⟩ 1).1 ∧ (write_color ⟨0, 0, 0⟩ 1).1 ≤ 255 ∧
      0 ≤ (write_color ⟨0, 0, 0⟩ 1).2.1 ∧ (write_color ⟨0, 0, 0⟩ 1).2.1 ≤ 255 ∧
      0 ≤ (write_color ⟨0, 0, 0⟩ 1).2.2 ∧ (write_color ⟨0, 0, 0⟩ 1).2.2 ≤ 255 :=
  C8_output_in_range ⟨0, 0, 0⟩ 1 (le_refl 0) (le_refl 0) (le_refl 0) (le_refl 1)

/-- C6: the integrator returns exactly black for any ray, any scene and
any depth ≤ 0; the depth test precedes the scene query. -/
theorem C6_depth_zero_black (rnd : ℕ → vec3 × ℝ) (r : ray) (world : hittable)
    (depth : ℤ) (h : depth ≤ 0) :
    ray_color rnd r world depth = ⟨0, 0, 0⟩ := by
  rw [ray_color]
  simp [h]

/-- Witness for C6 at depth 0 with a trivial scene. -/
theorem C6_depth_zero_black_witness :
    ray_color (fun _ => (⟨0, 0, 0⟩, 0)) ⟨⟨0, 0, 0⟩, ⟨0, 0, 1⟩⟩
      ⟨fun _ _ _ h => (false, h)⟩ 0 = ⟨0, 0, 0⟩ :=
  C6_depth_zero_black _ _ _ 0 (le_refl 0)

end RT
